import Mathlib

/-!
Verification of the pressure-projection and momentum-forcing subsystem of a
structured-grid incompressible flow solver (files force.cxx, pres.cxx,
pres_4.cxx).  The kernels are shallowly embedded over exact rational
arithmetic: 3-D fields are functions from flat integer indices
ijk = i + j*icells + k*ijcells to rationals, vertical profiles are functions
of the level index, and the per-column linear-system setups are modelled as
sequential updates of coefficient arrays, mirroring the source loops.
-/

set_option maxHeartbeats 1000000

namespace MicroHH

/-- Grid geometry owned by the external grid component: totals per direction,
ghost-cell counts, horizontal spacings, vertical metric profiles, the domain
height zsize and the Galilean translation velocity.  A single-rank view is
taken: imax = itot, jmax = jtot, kmax = ktot, and the sum reductions are the
identity. -/
structure Grid where
  itot : ℕ
  jtot : ℕ
  ktot : ℕ
  igc : ℕ
  jgc : ℕ
  kgc : ℕ
  dx : ℚ
  dy : ℚ
  zsize : ℚ
  utrans : ℚ
  vtrans : ℚ
  swspatialorder : String
  dz : ℤ → ℚ
  dzi : ℤ → ℚ
  dzhi : ℤ → ℚ

def Grid.icells (g : Grid) : ℤ := (g.itot : ℤ) + 2 * g.igc

def Grid.jcells (g : Grid) : ℤ := (g.jtot : ℤ) + 2 * g.jgc

def Grid.kcells (g : Grid) : ℤ := (g.ktot : ℤ) + 2 * g.kgc

def Grid.ijcells (g : Grid) : ℤ := g.icells * g.jcells

def Grid.ncells (g : Grid) : ℤ := g.icells * g.jcells * g.kcells

def Grid.istart (g : Grid) : ℤ := (g.igc : ℤ)

def Grid.jstart (g : Grid) : ℤ := (g.jgc : ℤ)

def Grid.kstart (g : Grid) : ℤ := (g.kgc : ℤ)

def Grid.iend (g : Grid) : ℤ := (g.igc : ℤ) + g.itot

def Grid.jend (g : Grid) : ℤ := (g.jgc : ℤ) + g.jtot

def Grid.kend (g : Grid) : ℤ := (g.kgc : ℤ) + g.ktot

/-- Flat index ijk = i + j*icells + k*ijcells used by every kernel. -/
def Grid.ijk (g : Grid) (i j k : ℤ) : ℤ := i + j * g.icells + k * g.ijcells

/-- First coordinate recovered from a flat index. -/
def Grid.iOf (g : Grid) (n : ℤ) : ℤ := n % g.icells

/-- Second coordinate recovered from a flat index. -/
def Grid.jOf (g : Grid) (n : ℤ) : ℤ := n / g.icells % g.jcells

/-- Third coordinate recovered from a flat index. -/
def Grid.kOf (g : Grid) (n : ℤ) : ℤ := n / g.icells / g.jcells

/-- A flat index denotes an interior cell when all three recovered
coordinates lie in the interior ranges [istart,iend) x [jstart,jend) x
[kstart,kend). -/
def Grid.inInterior (g : Grid) (n : ℤ) : Prop :=
  (g.istart ≤ g.iOf n ∧ g.iOf n < g.iend) ∧
  (g.jstart ≤ g.jOf n ∧ g.jOf n < g.jend) ∧
  (g.kstart ≤ g.kOf n ∧ g.kOf n < g.kend)

instance (g : Grid) (n : ℤ) : Decidable (g.inInterior n) := by
  unfold Grid.inInterior
  infer_instance

lemma Grid.icells_pos (g : Grid) (h : 0 < g.itot) : 0 < g.icells := by
  unfold Grid.icells; positivity

lemma Grid.jcells_pos (g : Grid) (h : 0 < g.jtot) : 0 < g.jcells := by
  unfold Grid.jcells; positivity

lemma Grid.iOf_ijk (g : Grid) {i : ℤ} (j k : ℤ) (hic : 0 < g.icells)
    (hi0 : 0 ≤ i) (hi : i < g.icells) : g.iOf (g.ijk i j k) = i := by
  have h1 : g.ijk i j k = i + (j + k * g.jcells) * g.icells := by
    unfold Grid.ijk Grid.ijcells; ring
  unfold Grid.iOf
  rw [h1, Int.add_mul_emod_self, Int.emod_eq_of_lt hi0 hi]

lemma Grid.jOf_ijk (g : Grid) {i j : ℤ} (k : ℤ) (hic : 0 < g.icells)
    (hjc : 0 < g.jcells) (hi0 : 0 ≤ i) (hi : i < g.icells)
    (hj0 : 0 ≤ j) (hj : j < g.jcells) : g.jOf (g.ijk i j k) = j := by
  have h1 : g.ijk i j k = i + (j + k * g.jcells) * g.icells := by
    unfold Grid.ijk Grid.ijcells; ring
  unfold Grid.jOf
  rw [h1, Int.add_mul_ediv_right _ _ (ne_of_gt hic),
    Int.ediv_eq_zero_of_lt hi0 hi, zero_add, Int.add_mul_emod_self,
    Int.emod_eq_of_lt hj0 hj]

lemma Grid.kOf_ijk (g : Grid) {i j : ℤ} (k : ℤ) (hic : 0 < g.icells)
    (hjc : 0 < g.jcells) (hi0 : 0 ≤ i) (hi : i < g.icells)
    (hj0 : 0 ≤ j) (hj : j < g.jcells) : g.kOf (g.ijk i j k) = k := by
  have h1 : g.ijk i j k = i + (j + k * g.jcells) * g.icells := by
    unfold Grid.ijk Grid.ijcells; ring
  unfold Grid.kOf
  rw [h1, Int.add_mul_ediv_right _ _ (ne_of_gt hic),
    Int.ediv_eq_zero_of_lt hi0 hi, zero_add,
    Int.add_mul_ediv_right _ _ (ne_of_gt hjc),
    Int.ediv_eq_zero_of_lt hj0 hj, zero_add]

/-- Decoding a flat index and re-encoding it is the identity. -/
lemma Grid.ijk_decode (g : Grid) (hic : 0 < g.icells) (hjc : 0 < g.jcells)
    (n : ℤ) : g.ijk (g.iOf n) (g.jOf n) (g.kOf n) = n := by
  unfold Grid.ijk Grid.iOf Grid.jOf Grid.kOf Grid.ijcells
  have h1 : g.icells * (n / g.icells) + n % g.icells = n :=
    Int.ediv_add_emod n g.icells
  have h2 : g.jcells * (n / g.icells / g.jcells) + n / g.icells % g.jcells
      = n / g.icells := Int.ediv_add_emod (n / g.icells) g.jcells
  nlinarith [h1, h2]

/-- Interior coordinate bounds translate into bounds against the allocated
array extents. -/
lemma Grid.interior_coord_bounds (g : Grid) {i j k : ℤ}
    (hi1 : g.istart ≤ i) (hi2 : i < g.iend)
    (hj1 : g.jstart ≤ j) (hj2 : j < g.jend)
    (hk1 : g.kstart ≤ k) (hk2 : k < g.kend) :
    (0 ≤ i ∧ i < g.icells) ∧ (0 ≤ j ∧ j < g.jcells) ∧
      (0 ≤ k ∧ k < g.kcells) := by
  unfold Grid.istart Grid.iend Grid.icells at *
  unfold Grid.jstart Grid.jend Grid.jcells at *
  unfold Grid.kstart Grid.kend Grid.kcells at *
  omega

/-- The encoded index of an interior cell satisfies the interior predicate,
and decoding recovers the coordinates. -/
lemma Grid.inInterior_ijk (g : Grid) (hit : 0 < g.itot) (hjt : 0 < g.jtot)
    {i j k : ℤ}
    (hi1 : g.istart ≤ i) (hi2 : i < g.iend)
    (hj1 : g.jstart ≤ j) (hj2 : j < g.jend)
    (hk1 : g.kstart ≤ k) (hk2 : k < g.kend) :
    g.inInterior (g.ijk i j k) ∧ g.iOf (g.ijk i j k) = i ∧
      g.jOf (g.ijk i j k) = j ∧ g.kOf (g.ijk i j k) = k := by
  obtain ⟨⟨hi0, hic⟩, ⟨hj0, hjc⟩, ⟨hk0, hkc⟩⟩ :=
    g.interior_coord_bounds hi1 hi2 hj1 hj2 hk1 hk2
  have hicp := g.icells_pos hit
  have hjcp := g.jcells_pos hjt
  have hiof := g.iOf_ijk j k hicp hi0 hic
  have hjof := g.jOf_ijk k hicp hjcp hi0 hic hj0 hjc
  have hkof := g.kOf_ijk k hicp hjcp hi0 hic hj0 hjc
  refine ⟨⟨?_, ?_, ?_⟩, hiof, hjof, hkof⟩
  · rw [hiof]; exact ⟨hi1, hi2⟩
  · rw [hjof]; exact ⟨hj1, hj2⟩
  · rw [hkof]; exact ⟨hk1, hk2⟩

/-- The flat index of an interior cell lies inside the allocated range
[0, ncells). -/
lemma Grid.ijk_lt_ncells (g : Grid) {i j k : ℤ}
    (hi1 : g.istart ≤ i) (hi2 : i < g.iend)
    (hj1 : g.jstart ≤ j) (hj2 : j < g.jend)
    (hk1 : g.kstart ≤ k) (hk2 : k < g.kend) :
    0 ≤ g.ijk i j k ∧ g.ijk i j k < g.ncells := by
  obtain ⟨⟨hi0, hic⟩, ⟨hj0, hjc⟩, ⟨hk0, hkc⟩⟩ :=
    g.interior_coord_bounds hi1 hi2 hj1 hj2 hk1 hk2
  have hicnn : (0 : ℤ) ≤ g.icells := le_of_lt (lt_of_le_of_lt hi0 hic)
  have hjcnn : (0 : ℤ) ≤ g.jcells := le_of_lt (lt_of_le_of_lt hj0 hjc)
  unfold Grid.ijk Grid.ncells Grid.ijcells
  constructor
  · have h1 : 0 ≤ j * g.icells := mul_nonneg hj0 hicnn
    have h2 : 0 ≤ k * (g.icells * g.jcells) :=
      mul_nonneg hk0 (mul_nonneg hicnn hjcnn)
    linarith
  · have h1 : j * g.icells ≤ (g.jcells - 1) * g.icells :=
      mul_le_mul_of_nonneg_right (by omega) hicnn
    have h2 : k * (g.icells * g.jcells)
        ≤ (g.kcells - 1) * (g.icells * g.jcells) :=
      mul_le_mul_of_nonneg_right (by omega) (mul_nonneg hicnn hjcnn)
    nlinarith

/-! Interior dz-weighted sums, mirroring the accumulation loop of
Force::calcFlux: uavg += u[ijk]*dz[k] over the interior.  On a single rank
getSum is the identity. -/

/-- The dz-weighted sum of a field over the interior cells. -/
def intSum (g : Grid) (f : ℤ → ℚ) : ℚ :=
  ∑ k ∈ Finset.Ico g.kstart g.kend,
    ∑ j ∈ Finset.Ico g.jstart g.jend,
      ∑ i ∈ Finset.Ico g.istart g.iend, f (g.ijk i j k) * g.dz k

/-- The volume-weighted bulk mean over the interior, normalized by
itot*jtot*zsize as in Force::calcFlux. -/
def bulkMean (g : Grid) (f : ℤ → ℚ) : ℚ :=
  intSum g f / ((g.itot : ℚ) * g.jtot * g.zsize)

/-- Body force of the uflux controller:
fbody = (uflux - uavg - utrans)/dt - utavg. -/
def fbodyOf (g : Grid) (uflux dt : ℚ) (u ut : ℤ → ℚ) : ℚ :=
  (uflux - bulkMean g u - g.utrans) / dt - bulkMean g ut

/-- Force::calcFlux: computes the mean body force and adds it to every
element of the allocated ut array (loop over n in [0, ncells)). -/
def calcFlux (g : Grid) (uflux : ℚ) (ut u : ℤ → ℚ) (dt : ℚ) : ℤ → ℚ :=
  fun n =>
    if 0 ≤ n ∧ n < g.ncells then ut n + fbodyOf g uflux dt u ut else ut n

lemma calcFlux_in_range (g : Grid) (uflux : ℚ) (ut u : ℤ → ℚ) (dt : ℚ)
    {n : ℤ} (h0 : 0 ≤ n) (h1 : n < g.ncells) :
    calcFlux g uflux ut u dt n = ut n + fbodyOf g uflux dt u ut := by
  unfold calcFlux
  rw [if_pos ⟨h0, h1⟩]

lemma intSum_add (g : Grid) (f₁ f₂ : ℤ → ℚ) :
    intSum g (fun n => f₁ n + f₂ n) = intSum g f₁ + intSum g f₂ := by
  unfold intSum
  simp [add_mul, Finset.sum_add_distrib]

lemma intSum_smul (g : Grid) (c : ℚ) (f : ℤ → ℚ) :
    intSum g (fun n => c * f n) = c * intSum g f := by
  unfold intSum
  simp [Finset.mul_sum, mul_assoc]

lemma card_Ico_shift (a : ℕ) (b : ℕ) :
    (Finset.Ico (a : ℤ) ((a : ℤ) + b)).card = b := by
  rw [Int.card_Ico]
  omega

lemma intSum_const (g : Grid) (c : ℚ) :
    intSum g (fun _ => c) =
      (g.itot : ℚ) * g.jtot * c * ∑ k ∈ Finset.Ico g.kstart g.kend, g.dz k := by
  unfold intSum Grid.istart Grid.iend Grid.jstart Grid.jend
  rw [Finset.mul_sum]
  refine Finset.sum_congr rfl fun k _ => ?_
  rw [Finset.sum_const, Finset.sum_const, card_Ico_shift, card_Ico_shift]
  push_cast
  ring

/-- Splitting the interior sum of an Euler-updated field: the update by a
uniform body force contributes itot*jtot*zsize times the force. -/
lemma intSum_euler (g : Grid) (uflux dt : ℚ) (u ut : ℤ → ℚ)
    (hz : g.zsize = ∑ k ∈ Finset.Ico g.kstart g.kend, g.dz k) :
    intSum g (fun n => u n + dt * calcFlux g uflux ut u dt n) =
      intSum g u + dt * intSum g ut +
        dt * fbodyOf g uflux dt u ut * ((g.itot : ℚ) * g.jtot * g.zsize) := by
  have hcong : intSum g (fun n => u n + dt * calcFlux g uflux ut u dt n) =
      intSum g (fun n => u n + dt * ut n + dt * fbodyOf g uflux dt u ut) := by
    unfold intSum
    refine Finset.sum_congr rfl fun k hk => ?_
    refine Finset.sum_congr rfl fun j hj => ?_
    refine Finset.sum_congr rfl fun i hi => ?_
    rw [Finset.mem_Ico] at hk hj hi
    obtain ⟨h0, h1⟩ := g.ijk_lt_ncells hi.1 hi.2 hj.1 hj.2 hk.1 hk.2
    simp only
    rw [calcFlux_in_range g uflux ut u dt h0 h1]
    ring_nf
  rw [hcong]
  have h1 : intSum g (fun n => u n + dt * ut n + dt * fbodyOf g uflux dt u ut)
      = intSum g (fun n => u n + dt * ut n) +
        intSum g (fun _ => dt * fbodyOf g uflux dt u ut) :=
    intSum_add g _ _
  rw [h1, intSum_add g u (fun n => dt * ut n), intSum_smul, intSum_const, hz]
  ring

/-! The remaining Force kernels.  Each loop writes only its own flat index
ijk of interior cells, reading only unmodified fields, so a kernel is
embedded as the pointwise map it computes: at an interior index the written
value, elsewhere the old value. -/

/-- Force::calcCoriolis_2nd: 4-point interpolated Coriolis forcing on
(ut, vt); first component is the new ut, second the new vt. -/
def calcCoriolis_2nd (g : Grid) (fc : ℚ) (ut vt u v ug vg : ℤ → ℚ) :
    (ℤ → ℚ) × (ℤ → ℚ) :=
  (fun n =>
    if g.inInterior n then
      ut n + fc * (0.25 * (v (n - 1) + v n + v (n - 1 + g.icells)
        + v (n + g.icells)) + g.vtrans - vg (g.kOf n))
    else ut n,
   fun n =>
    if g.inInterior n then
      vt n - fc * (0.25 * (u (n - g.icells) + u n + u (n + 1 - g.icells)
        + u (n + 1)) + g.utrans - ug (g.kOf n))
    else vt n)

/-- Force::calcCoriolis_4th: 4x4 tensor-product interpolated Coriolis
forcing.  The interpolation weights ci0..ci3 live in the shared
finite-difference header, which is not part of this repository slice; they
are taken as parameters. -/
def calcCoriolis_4th (g : Grid) (fc ci0 ci1 ci2 ci3 : ℚ)
    (ut vt u v ug vg : ℤ → ℚ) : (ℤ → ℚ) × (ℤ → ℚ) :=
  let jj1 := g.icells
  let jj2 := 2 * g.icells
  (fun n =>
    if g.inInterior n then
      ut n + fc * ((ci0 * (ci0 * v (n - 2 - jj1) + ci1 * v (n - 1 - jj1)
          + ci2 * v (n - jj1) + ci3 * v (n + 1 - jj1))
        + ci1 * (ci0 * v (n - 2) + ci1 * v (n - 1)
          + ci2 * v n + ci3 * v (n + 1))
        + ci2 * (ci0 * v (n - 2 + jj1) + ci1 * v (n - 1 + jj1)
          + ci2 * v (n + jj1) + ci3 * v (n + 1 + jj1))
        + ci3 * (ci0 * v (n - 2 + jj2) + ci1 * v (n - 1 + jj2)
          + ci2 * v (n + jj2) + ci3 * v (n + 1 + jj2)))
        + g.vtrans - vg (g.kOf n))
    else ut n,
   fun n =>
    if g.inInterior n then
      vt n - fc * ((ci0 * (ci0 * u (n - 1 - jj2) + ci1 * u (n - jj2)
          + ci2 * u (n + 1 - jj2) + ci3 * u (n + 2 - jj2))
        + ci1 * (ci0 * u (n - 1 - jj1) + ci1 * u (n - jj1)
          + ci2 * u (n + 1 - jj1) + ci3 * u (n + 2 - jj1))
        + ci2 * (ci0 * u (n - 1) + ci1 * u n
          + ci2 * u (n + 1) + ci3 * u (n + 2))
        + ci3 * (ci0 * u (n - 1 + jj1) + ci1 * u (n + jj1)
          + ci2 * u (n + 1 + jj1) + ci3 * u (n + 2 + jj1)))
        + g.utrans - ug (g.kOf n))
    else vt n)

/-- Force::calcLargeScaleSource: st[ijk] += sls[k] over the interior. -/
def calcLargeScaleSource (g : Grid) (st sls : ℤ → ℚ) : ℤ → ℚ :=
  fun n => if g.inInterior n then st n + sls (g.kOf n) else st n

/-- Force::advec_wls_2nd: upwind large-scale subsidence advection of a
scalar tendency st from the mean profile s, branching on the sign of
wls[k]. -/
def advec_wls_2nd (g : Grid) (st s wls dzhi : ℤ → ℚ) : ℤ → ℚ :=
  fun n =>
    if g.inInterior n then
      if 0 < wls (g.kOf n) then
        st n - wls (g.kOf n) * (s (g.kOf n) - s (g.kOf n - 1))
          * dzhi (g.kOf n)
      else
        st n - wls (g.kOf n) * (s (g.kOf n + 1) - s (g.kOf n))
          * dzhi (g.kOf n + 1)
    else st n

/-- Configuration and profile state owned by the Force component. -/
structure ForceConfig where
  swlspres : String
  swls : String
  swwls : String
  lslist : List String
  uflux : ℚ
  fc : ℚ
  ci0 : ℚ
  ci1 : ℚ
  ci2 : ℚ
  ci3 : ℚ
  ug : ℤ → ℚ
  vg : ℤ → ℚ
  wls : ℤ → ℚ
  lsprofs : String → ℤ → ℚ

/-- The Fields arrays borrowed by Force: velocities, tendencies, the scalar
tendency map st (an association list keyed by scalar name, mirroring the
C++ std::map) and the horizontal-mean profiles datamean of the prognostic
scalars sp. -/
structure FieldsState where
  u : ℤ → ℚ
  v : ℤ → ℚ
  w : ℤ → ℚ
  ut : ℤ → ℚ
  vt : ℤ → ℚ
  wt : ℤ → ℚ
  st : List (String × (ℤ → ℚ))
  spMean : String → ℤ → ℚ

/-- Update of one named entry of the scalar tendency map, as done by the
lslist loop of Force::exec. -/
def updSt (stmap : List (String × (ℤ → ℚ))) (nm : String)
    (f : (ℤ → ℚ) → (ℤ → ℚ)) : List (String × (ℤ → ℚ)) :=
  stmap.map fun pr => if pr.1 = nm then (pr.1, f pr.2) else pr

/-- Force::exec: applies, in order, the large-scale pressure forcing
(uflux controller or Coriolis), the large-scale source profiles for the
scalars listed in lslist, and the subsidence advection over the whole
scalar tendency map. -/
def forceExec (g : Grid) (cfg : ForceConfig) (f : FieldsState) (dt : ℚ) :
    FieldsState :=
  let f1 :=
    if cfg.swlspres = "uflux" then
      { f with ut := calcFlux g cfg.uflux f.ut f.u dt }
    else if cfg.swlspres = "geo" then
      if g.swspatialorder = "2" then
        let c := calcCoriolis_2nd g cfg.fc f.ut f.vt f.u f.v cfg.ug cfg.vg
        { f with ut := c.1, vt := c.2 }
      else if g.swspatialorder = "4" then
        let c := calcCoriolis_4th g cfg.fc cfg.ci0 cfg.ci1 cfg.ci2 cfg.ci3
          f.ut f.vt f.u f.v cfg.ug cfg.vg
        { f with ut := c.1, vt := c.2 }
      else f
    else f
  let f2 :=
    if cfg.swls = "1" then
      { f1 with st := (cfg.lslist.foldl
          (fun m nm => updSt m nm
            (fun t => calcLargeScaleSource g t (cfg.lsprofs nm))) f1.st) }
    else f1
  if cfg.swwls = "1" then
    { f2 with st := f2.st.map fun pr =>
        (pr.1, advec_wls_2nd g pr.2 (f2.spMean pr.1) cfg.wls g.dzhi) }
  else f2

/-! Concrete fixture values used by the witness theorems. -/

/-- A minimal grid without ghost cells: one interior cell. -/
def gridNoGc : Grid :=
  { itot := 1, jtot := 1, ktot := 1, igc := 0, jgc := 0, kgc := 0,
    dx := 1, dy := 1, zsize := 1, utrans := 0, vtrans := 0,
    swspatialorder := "2",
    dz := fun _ => 1, dzi := fun _ => 1, dzhi := fun _ => 1 }

/-- A 1x1x1 interior grid with one layer of ghost cells (icells = 3,
ncells = 27); flat index 0 is a ghost cell. -/
def gridGc : Grid :=
  { itot := 1, jtot := 1, ktot := 1, igc := 1, jgc := 1, kgc := 1,
    dx := 1, dy := 1, zsize := 1, utrans := 0, vtrans := 0,
    swspatialorder := "2",
    dz := fun _ => 1, dzi := fun _ => 1, dzhi := fun _ => 1 }

/-- Configuration running only the uflux controller with target 10. -/
def cfgUflux : ForceConfig :=
  { swlspres := "uflux", swls := "0", swwls := "0", lslist := [],
    uflux := 10, fc := 0, ci0 := 0, ci1 := 0, ci2 := 0, ci3 := 0,
    ug := fun _ => 0, vg := fun _ => 0, wls := fun _ => 0,
    lsprofs := fun _ _ => 0 }

/-- Configuration running only the subsidence mode, with an empty lslist
and unit subsidence velocity. -/
def cfgWls : ForceConfig :=
  { swlspres := "0", swls := "0", swwls := "1", lslist := [],
    uflux := 0, fc := 0, ci0 := 0, ci1 := 0, ci2 := 0, ci3 := 0,
    ug := fun _ => 0, vg := fun _ => 0, wls := fun _ => 1,
    lsprofs := fun _ _ => 0 }

/-- Fields with uniform u = 5, all tendencies zero, and one scalar
tendency entry named s. -/
def fieldsU5 : FieldsState :=
  { u := fun _ => 5, v := fun _ => 0, w := fun _ => 0,
    ut := fun _ => 0, vt := fun _ => 0, wt := fun _ => 0,
    st := [("s", fun _ => 0)], spMean := fun _ k => (k : ℚ) }

lemma forceExec_ut_uflux (g : Grid) (cfg : ForceConfig) (f : FieldsState)
    (dt : ℚ) (hmode : cfg.swlspres = "uflux") :
    (forceExec g cfg f dt).ut = calcFlux g cfg.uflux f.ut f.u dt := by
  unfold forceExec
  rw [if_pos hmode]
  by_cases h2 : cfg.swls = "1" <;> by_cases h3 : cfg.swwls = "1" <;>
    simp [h2, h3]

/-- C1: with swlspres = "uflux", Force::exec adds the single uniform body
force fbody = (uflux - mean u - utrans)/dt - mean ut to every allocated
element of ut, where the means are dz-weighted interior sums divided by
itot*jtot*zsize; consequently after the Euler update u += dt*ut with no
other forces the bulk mean of u plus utrans equals uflux exactly. -/
theorem uflux_controller (g : Grid) (cfg : ForceConfig) (f : FieldsState)
    (dt : ℚ) (hmode : cfg.swlspres = "uflux")
    (hdt : dt ≠ 0) (hit : 0 < g.itot) (hjt : 0 < g.jtot)
    (hz : g.zsize = ∑ k ∈ Finset.Ico g.kstart g.kend, g.dz k)
    (hz0 : g.zsize ≠ 0) :
    (∀ n, 0 ≤ n → n < g.ncells →
      (forceExec g cfg f dt).ut n
        = f.ut n + fbodyOf g cfg.uflux dt f.u f.ut) ∧
    bulkMean g (fun n => f.u n + dt * (forceExec g cfg f dt).ut n)
        + g.utrans = cfg.uflux := by
  have hut := forceExec_ut_uflux g cfg f dt hmode
  constructor
  · intro n h0 h1
    rw [hut]
    exact calcFlux_in_range g cfg.uflux f.ut f.u dt h0 h1
  · rw [hut]
    have hD : ((g.itot : ℚ) * g.jtot * g.zsize) ≠ 0 := by
      have h1 : (g.itot : ℚ) ≠ 0 := by positivity
      have h2 : (g.jtot : ℚ) ≠ 0 := by positivity
      exact mul_ne_zero (mul_ne_zero h1 h2) hz0
    unfold bulkMean
    rw [intSum_euler g cfg.uflux dt f.u f.ut hz]
    unfold fbodyOf bulkMean
    field_simp
    ring

/-- C1 witness: on a one-cell grid with u = 5, ut = 0, uflux = 10,
utrans = 0 and dt = 1, the post-Euler bulk mean plus utrans is 10. -/
theorem uflux_controller_witness :
    cfgUflux.swlspres = "uflux" ∧ (1 : ℚ) ≠ 0 ∧ 0 < gridNoGc.itot ∧
    gridNoGc.zsize = ∑ k ∈ Finset.Ico gridNoGc.kstart gridNoGc.kend,
      gridNoGc.dz k ∧
    bulkMean gridNoGc
        (fun n => fieldsU5.u n + 1 * (forceExec gridNoGc cfgUflux fieldsU5 1).ut n)
        + gridNoGc.utrans = cfgUflux.uflux :=
  ⟨rfl, by norm_num, by decide,
    by simp [gridNoGc, Grid.kstart, Grid.kend, Int.card_Ico],
    (uflux_controller gridNoGc cfgUflux fieldsU5 1 rfl (by norm_num)
      (by decide) (by decide)
      (by simp [gridNoGc, Grid.kstart, Grid.kend, Int.card_Ico])
      (by decide)).2⟩

/-- C9: Force::calcFlux adds the body force to ut at every index of the
allocated array, ghost and halo cells included: the update loop runs over
all n in [0, ncells), not only over the interior. -/
theorem calcFlux_updates_all_cells (g : Grid) (uflux : ℚ) (ut u : ℤ → ℚ)
    (dt : ℚ) (n : ℤ) (h0 : 0 ≤ n) (h1 : n < g.ncells) :
    calcFlux g uflux ut u dt n = ut n + fbodyOf g uflux dt u ut :=
  calcFlux_in_range g uflux ut u dt h0 h1

/-- C9 witness: on the ghosted grid, flat index 0 is a ghost cell (its
decoded coordinates are outside the interior), yet it receives the body
force. -/
theorem calcFlux_updates_all_cells_witness :
    ¬ gridGc.inInterior 0 ∧ (0 : ℤ) ≤ 0 ∧ (0 : ℤ) < gridGc.ncells ∧
    calcFlux gridGc 10 (fun _ => 0) (fun _ => 5) 1 0
      = (fun _ => (0 : ℚ)) 0 + fbodyOf gridGc 10 1 (fun _ => 5) (fun _ => 0) :=
  ⟨by decide, le_refl 0, by decide,
    calcFlux_updates_all_cells gridGc 10 (fun _ => 0) (fun _ => 5) 1 0
      (le_refl 0) (by decide)⟩

/-- C10: with swwls = "1" (and the other forcing modes off), Force::exec
applies the subsidence advection to every entry of the scalar tendency map
fields->st — the iteration is over the whole map, not over lslist, so
scalars absent from lslist (which is arbitrary here) are advected too —
using each scalar's own mean profile, and it leaves ut, vt and wt
untouched. -/
theorem exec_wls_all_scalars (g : Grid) (cfg : ForceConfig)
    (f : FieldsState) (dt : ℚ) (hw : cfg.swwls = "1")
    (hp : cfg.swlspres = "0") (hl : cfg.swls = "0") :
    (forceExec g cfg f dt).st = f.st.map (fun pr =>
      (pr.1, advec_wls_2nd g pr.2 (f.spMean pr.1) cfg.wls g.dzhi)) ∧
    (forceExec g cfg f dt).ut = f.ut ∧
    (forceExec g cfg f dt).vt = f.vt ∧
    (forceExec g cfg f dt).wt = f.wt := by
  have e1 : ¬ ("0" : String) = "uflux" := by decide
  have e2 : ¬ ("0" : String) = "geo" := by decide
  have e3 : ¬ ("0" : String) = "1" := by decide
  unfold forceExec
  rw [hp, hw, hl]
  simp only [if_neg e1, if_neg e2, if_neg e3, if_pos rfl]
  exact ⟨rfl, rfl, rfl, rfl⟩

/-- C10 witness: the scalar s is not in the (empty) lslist and is still
advected, while ut is untouched. -/
theorem exec_wls_all_scalars_witness :
    cfgWls.swwls = "1" ∧
    (forceExec gridGc cfgWls fieldsU5 1).st = fieldsU5.st.map (fun pr =>
      (pr.1, advec_wls_2nd gridGc pr.2 (fieldsU5.spMean pr.1) cfgWls.wls
        gridGc.dzhi)) ∧
    (forceExec gridGc cfgWls fieldsU5 1).ut = fieldsU5.ut :=
  ⟨rfl, (exec_wls_all_scalars gridGc cfgWls fieldsU5 1 rfl rfl rfl).1,
    (exec_wls_all_scalars gridGc cfgWls fieldsU5 1 rfl rfl rfl).2.1⟩

/-! 2nd-order pressure solver kernels (pres.cxx). -/

/-- cpres::pres_2nd_in: builds the Poisson right-hand side at cell centers
from the provisional tendencies and velocities. -/
def pres_2nd_in (g : Grid) (p u v w ut vt wt dzi : ℤ → ℚ) (dt : ℚ) :
    ℤ → ℚ :=
  fun n =>
    if g.inInterior n then
      ((ut (n + 1) + u (n + 1) / dt) - (ut n + u n / dt)) * (1 / g.dx)
      + ((vt (n + g.icells) + v (n + g.icells) / dt)
          - (vt n + v n / dt)) * (1 / g.dy)
      + ((wt (n + g.ijcells) + w (n + g.ijcells) / dt)
          - (wt n + w n / dt)) * dzi (g.kOf n)
    else p n

/-- cpres::pres_2nd_out: subtracts the discrete pressure gradient from the
tendencies; the three components are the new ut, vt, wt. -/
def pres_2nd_out (g : Grid) (ut vt wt p dzhi : ℤ → ℚ) :
    (ℤ → ℚ) × (ℤ → ℚ) × (ℤ → ℚ) :=
  (fun n =>
    if g.inInterior n then ut n - (p n - p (n - 1)) * (1 / g.dx) else ut n,
   fun n =>
    if g.inInterior n then vt n - (p n - p (n - g.icells)) * (1 / g.dy)
    else vt n,
   fun n =>
    if g.inInterior n then wt n - (p n - p (n - g.ijcells)) * dzhi (g.kOf n)
    else wt n)

lemma ijk_shift_i (g : Grid) (i j k : ℤ) :
    g.ijk i j k + 1 = g.ijk (i + 1) j k := by
  unfold Grid.ijk; ring

lemma ijk_shift_j (g : Grid) (i j k : ℤ) :
    g.ijk i j k + g.icells = g.ijk i (j + 1) k := by
  unfold Grid.ijk; ring

lemma ijk_shift_k (g : Grid) (i j k : ℤ) :
    g.ijk i j k + g.ijcells = g.ijk i j (k + 1) := by
  unfold Grid.ijk; ring

/-- C3: pres_2nd_in sets p at every interior cell to the discrete
divergence of (ut + u/dt, vt + v/dt, wt + w/dt): east minus west times
1/dx, plus north minus south times 1/dy, plus top minus bottom times
dzi[k]. -/
theorem pres_2nd_in_divergence (g : Grid) (hit : 0 < g.itot)
    (hjt : 0 < g.jtot) (p u v w ut vt wt dzi : ℤ → ℚ) (dt : ℚ) (i j k : ℤ)
    (hi1 : g.istart ≤ i) (hi2 : i < g.iend)
    (hj1 : g.jstart ≤ j) (hj2 : j < g.jend)
    (hk1 : g.kstart ≤ k) (hk2 : k < g.kend) :
    pres_2nd_in g p u v w ut vt wt dzi dt (g.ijk i j k) =
      ((ut (g.ijk (i + 1) j k) + u (g.ijk (i + 1) j k) / dt)
          - (ut (g.ijk i j k) + u (g.ijk i j k) / dt)) * (1 / g.dx)
      + ((vt (g.ijk i (j + 1) k) + v (g.ijk i (j + 1) k) / dt)
          - (vt (g.ijk i j k) + v (g.ijk i j k) / dt)) * (1 / g.dy)
      + ((wt (g.ijk i j (k + 1)) + w (g.ijk i j (k + 1)) / dt)
          - (wt (g.ijk i j k) + w (g.ijk i j k) / dt)) * dzi k := by
  obtain ⟨hin, _, _, hko⟩ :=
    g.inInterior_ijk hit hjt hi1 hi2 hj1 hj2 hk1 hk2
  unfold pres_2nd_in
  rw [if_pos hin, hko, ijk_shift_i, ijk_shift_j, ijk_shift_k]

/-- C3 witness: evaluation at the single interior cell of the ghosted
1x1x1 grid, with fields chosen so the divergence is visible. -/
theorem pres_2nd_in_divergence_witness :
    gridGc.istart ≤ 1 ∧ (1 : ℤ) < gridGc.iend ∧
    pres_2nd_in gridGc (fun _ => 0) (fun n => (n : ℚ)) (fun _ => 0)
        (fun _ => 0) (fun _ => 0) (fun _ => 0) (fun _ => 0) (fun _ => 1) 1
        (gridGc.ijk 1 1 1) =
      ((0 + ((gridGc.ijk 2 1 1 : ℤ) : ℚ) / 1)
          - (0 + ((gridGc.ijk 1 1 1 : ℤ) : ℚ) / 1)) * (1 / gridGc.dx)
      + ((0 + 0 / 1) - (0 + 0 / 1)) * (1 / gridGc.dy)
      + ((0 + 0 / 1) - (0 + 0 / 1)) * 1 :=
  ⟨by decide, by decide,
    pres_2nd_in_divergence gridGc (by decide) (by decide) (fun _ => 0)
      (fun n => (n : ℚ)) (fun _ => 0) (fun _ => 0) (fun _ => 0) (fun _ => 0)
      (fun _ => 0) (fun _ => 1) 1 1 1 1 (by decide) (by decide) (by decide)
      (by decide) (by decide) (by decide)⟩

/-- C4: pres_2nd_out updates the tendencies at every interior cell by
subtracting the pressure gradient (backward differences with 1/dx, 1/dy
and dzhi[k]) and modifies no index that is not the flat index of an
interior cell. -/
theorem pres_2nd_out_project (g : Grid) (hit : 0 < g.itot)
    (hjt : 0 < g.jtot) (ut vt wt p dzhi : ℤ → ℚ) :
    (∀ i j k : ℤ, g.istart ≤ i → i < g.iend → g.jstart ≤ j → j < g.jend →
      g.kstart ≤ k → k < g.kend →
      (pres_2nd_out g ut vt wt p dzhi).1 (g.ijk i j k)
          = ut (g.ijk i j k)
            - (p (g.ijk i j k) - p (g.ijk i j k - 1)) * (1 / g.dx) ∧
      (pres_2nd_out g ut vt wt p dzhi).2.1 (g.ijk i j k)
          = vt (g.ijk i j k)
            - (p (g.ijk i j k) - p (g.ijk i j k - g.icells)) * (1 / g.dy) ∧
      (pres_2nd_out g ut vt wt p dzhi).2.2 (g.ijk i j k)
          = wt (g.ijk i j k)
            - (p (g.ijk i j k) - p (g.ijk i j k - g.ijcells)) * dzhi k) ∧
    (∀ n : ℤ, (∀ i j k : ℤ, g.istart ≤ i → i < g.iend → g.jstart ≤ j →
        j < g.jend → g.kstart ≤ k → k < g.kend → n ≠ g.ijk i j k) →
      (pres_2nd_out g ut vt wt p dzhi).1 n = ut n ∧
      (pres_2nd_out g ut vt wt p dzhi).2.1 n = vt n ∧
      (pres_2nd_out g ut vt wt p dzhi).2.2 n = wt n) := by
  constructor
  · intro i j k hi1 hi2 hj1 hj2 hk1 hk2
    obtain ⟨hin, _, _, hko⟩ :=
      g.inInterior_ijk hit hjt hi1 hi2 hj1 hj2 hk1 hk2
    unfold pres_2nd_out
    simp only
    rw [if_pos hin, if_pos hin, if_pos hin, hko]
    exact ⟨rfl, rfl, rfl⟩
  · intro n hn
    have hnot : ¬ g.inInterior n := by
      intro hin
      obtain ⟨⟨h1, h2⟩, ⟨h3, h4⟩, ⟨h5, h6⟩⟩ := hin
      exact hn (g.iOf n) (g.jOf n) (g.kOf n) h1 h2 h3 h4 h5 h6
        (g.ijk_decode (g.icells_pos hit) (g.jcells_pos hjt) n).symm
    unfold pres_2nd_out
    simp only
    rw [if_neg hnot, if_neg hnot, if_neg hnot]
    exact ⟨rfl, rfl, rfl⟩

/-- C4 witness: evaluation of the projected ut at the interior cell of the
ghosted 1x1x1 grid. -/
theorem pres_2nd_out_project_witness :
    gridGc.istart ≤ 1 ∧ (1 : ℤ) < gridGc.iend ∧
    (pres_2nd_out gridGc (fun _ => 0) (fun _ => 0) (fun _ => 0)
        (fun n => (n : ℚ)) (fun _ => 1)).1 (gridGc.ijk 1 1 1)
      = 0 - (((gridGc.ijk 1 1 1 : ℤ) : ℚ)
          - ((gridGc.ijk 1 1 1 - 1 : ℤ) : ℚ)) * (1 / gridGc.dx) :=
  ⟨by decide, by decide,
    ((pres_2nd_out_project gridGc (by decide) (by decide) (fun _ => 0)
      (fun _ => 0) (fun _ => 0) (fun n => (n : ℚ)) (fun _ => 1)).1 1 1 1
      (by decide) (by decide) (by decide) (by decide) (by decide)
      (by decide)).1⟩

/-- C7: the subsidence kernel is upwind in the sign of wls[k]: for
wls[k] > 0 it subtracts wls[k]*(s[k]-s[k-1])*dzhi[k], otherwise
wls[k]*(s[k+1]-s[k])*dzhi[k+1]; with wls = 1, mean profile s[k] = k and st
initially zero the result is -dzhi[k] at every interior point. -/
theorem advec_wls_2nd_upwind (g : Grid) (hit : 0 < g.itot)
    (hjt : 0 < g.jtot) (st s wls dzhi : ℤ → ℚ) (i j k : ℤ)
    (hi1 : g.istart ≤ i) (hi2 : i < g.iend)
    (hj1 : g.jstart ≤ j) (hj2 : j < g.jend)
    (hk1 : g.kstart ≤ k) (hk2 : k < g.kend) :
    (0 < wls k → advec_wls_2nd g st s wls dzhi (g.ijk i j k)
        = st (g.ijk i j k) - wls k * (s k - s (k - 1)) * dzhi k) ∧
    (wls k ≤ 0 → advec_wls_2nd g st s wls dzhi (g.ijk i j k)
        = st (g.ijk i j k) - wls k * (s (k + 1) - s k) * dzhi (k + 1)) ∧
    advec_wls_2nd g (fun _ => 0) (fun m => (m : ℚ)) (fun _ => 1) dzhi
        (g.ijk i j k) = -dzhi k := by
  obtain ⟨hin, _, _, hko⟩ :=
    g.inInterior_ijk hit hjt hi1 hi2 hj1 hj2 hk1 hk2
  refine ⟨fun hw => ?_, fun hw => ?_, ?_⟩
  · unfold advec_wls_2nd
    rw [if_pos hin, hko, if_pos hw]
  · unfold advec_wls_2nd
    rw [if_pos hin, hko, if_neg (not_lt.mpr hw)]
  · unfold advec_wls_2nd
    rw [if_pos hin, hko, if_pos one_pos]
    push_cast
    ring

/-- C7 witness: the S5 scenario value at the interior cell of the ghosted
grid. -/
theorem advec_wls_2nd_upwind_witness :
    gridGc.kstart ≤ 1 ∧ (1 : ℤ) < gridGc.kend ∧
    advec_wls_2nd gridGc (fun _ => 0) (fun m => (m : ℚ)) (fun _ => 1)
        gridGc.dzhi (gridGc.ijk 1 1 1) = -gridGc.dzhi 1 :=
  ⟨by decide, by decide,
    (advec_wls_2nd_upwind gridGc (by decide) (by decide) (fun _ => 0)
      (fun m => (m : ℚ)) (fun _ => 1) gridGc.dzhi 1 1 1 (by decide)
      (by decide) (by decide) (by decide) (by decide) (by decide)).2.2⟩

/-! Vertical tridiagonal system of the 2nd-order solver: coefficients from
cpres::pres_2nd_init, per-column assembly with boundary substitutions from
cpres::pres_2nd_solve. -/

/-- Sub-diagonal a[k] = dz[k+kgc]*dzhi[k+kgc] (pres_2nd_init). -/
def aCoef (g : Grid) (k : ℕ) : ℚ :=
  g.dz ((k : ℤ) + g.kgc) * g.dzhi ((k : ℤ) + g.kgc)

/-- Super-diagonal c[k] = dz[k+kgc]*dzhi[k+kgc+1] (pres_2nd_init). -/
def cCoef (g : Grid) (k : ℕ) : ℚ :=
  g.dz ((k : ℤ) + g.kgc) * g.dzhi ((k : ℤ) + g.kgc + 1)

/-- Diagonal before the boundary substitutions:
b[k] = dz[k+kgc]^2*(bmati[iindex]+bmatj[jindex]) - (a[k]+c[k]). -/
def bBase (g : Grid) (bmati bmatj : ℕ → ℚ) (iindex jindex : ℕ) (k : ℕ) :
    ℚ :=
  g.dz ((k : ℤ) + g.kgc) * g.dz ((k : ℤ) + g.kgc)
      * (bmati iindex + bmatj jindex)
    - (aCoef g k + cCoef g k)

/-- Right-hand side xin[k] = dz[k+kgc]^2 * phat[k] for the transformed
pressure column phat. -/
def xinRhs (g : Grid) (phat : ℕ → ℚ) (k : ℕ) : ℚ :=
  g.dz ((k : ℤ) + g.kgc) * g.dz ((k : ℤ) + g.kgc) * phat k

/-- The diagonal after the sequential boundary substitutions of
pres_2nd_solve: first b[0] += a[0], then b[ktot-1] -= c[ktot-1] for the
zero wavenumber and b[ktot-1] += c[ktot-1] for every other mode. -/
def bSolve (g : Grid) (bmati bmatj : ℕ → ℚ) (iindex jindex : ℕ) : ℕ → ℚ :=
  let b0 := bBase g bmati bmatj iindex jindex
  let b1 := Function.update b0 0 (b0 0 + aCoef g 0)
  if iindex = 0 ∧ jindex = 0 then
    Function.update b1 (g.ktot - 1) (b1 (g.ktot - 1) - cCoef g (g.ktot - 1))
  else
    Function.update b1 (g.ktot - 1) (b1 (g.ktot - 1) + cCoef g (g.ktot - 1))

/-- C2: per wavenumber pair the tridiagonal system has a[k] =
dz[k+kgc]*dzhi[k+kgc], c[k] = dz[k+kgc]*dzhi[k+kgc+1], interior diagonal
b[k] = dz[k+kgc]^2*(bmati+bmatj) - (a[k]+c[k]) and RHS dz[k+kgc]^2*phat[k];
b[0] += a[0] is always applied, and the top row gets -c[ktot-1] exactly for
the zero mode (iindex, jindex) = (0, 0) and +c[ktot-1] for every other
mode. -/
theorem pres_2nd_tridiag (g : Grid) (bmati bmatj phat : ℕ → ℚ)
    (iindex jindex : ℕ) (hkt : 2 ≤ g.ktot) :
    (∀ k : ℕ,
      aCoef g k = g.dz ((k : ℤ) + g.kgc) * g.dzhi ((k : ℤ) + g.kgc) ∧
      cCoef g k = g.dz ((k : ℤ) + g.kgc) * g.dzhi ((k : ℤ) + g.kgc + 1) ∧
      xinRhs g phat k
        = g.dz ((k : ℤ) + g.kgc) * g.dz ((k : ℤ) + g.kgc) * phat k) ∧
    (∀ k : ℕ, 0 < k → k < g.ktot - 1 →
      bSolve g bmati bmatj iindex jindex k
        = bBase g bmati bmatj iindex jindex k) ∧
    bSolve g bmati bmatj iindex jindex 0
      = bBase g bmati bmatj iindex jindex 0 + aCoef g 0 ∧
    (iindex = 0 ∧ jindex = 0 →
      bSolve g bmati bmatj iindex jindex (g.ktot - 1)
        = bBase g bmati bmatj iindex jindex (g.ktot - 1)
          - cCoef g (g.ktot - 1)) ∧
    (¬ (iindex = 0 ∧ jindex = 0) →
      bSolve g bmati bmatj iindex jindex (g.ktot - 1)
        = bBase g bmati bmatj iindex jindex (g.ktot - 1)
          + cCoef g (g.ktot - 1)) := by
  have htop : g.ktot - 1 ≠ 0 := by omega
  refine ⟨fun k => ⟨rfl, rfl, rfl⟩, ?_, ?_, ?_, ?_⟩
  · intro k hk0 hk1
    have hne1 : k ≠ g.ktot - 1 := by omega
    have hne0 : k ≠ 0 := by omega
    unfold bSolve
    by_cases hz : iindex = 0 ∧ jindex = 0
    · rw [if_pos hz, Function.update_noteq hne1, Function.update_noteq hne0]
    · rw [if_neg hz, Function.update_noteq hne1, Function.update_noteq hne0]
  · unfold bSolve
    by_cases hz : iindex = 0 ∧ jindex = 0
    · rw [if_pos hz, Function.update_noteq (Ne.symm htop),
        Function.update_same]
    · rw [if_neg hz, Function.update_noteq (Ne.symm htop),
        Function.update_same]
  · intro hz
    unfold bSolve
    rw [if_pos hz, Function.update_same, Function.update_noteq htop]
  · intro hz
    unfold bSolve
    rw [if_neg hz, Function.update_same, Function.update_noteq htop]

/-- A 1x1x2 grid with one ghost layer, used to exercise the top-row
substitution. -/
def gridK2 : Grid :=
  { itot := 1, jtot := 1, ktot := 2, igc := 1, jgc := 1, kgc := 1,
    dx := 1, dy := 1, zsize := 2, utrans := 0, vtrans := 0,
    swspatialorder := "2",
    dz := fun _ => 1, dzi := fun _ => 1, dzhi := fun _ => 1 }

/-- C2 witness: on the 1x1x2 grid the zero mode gets the pinning top row
b[1] = bBase[1] - c[1]. -/
theorem pres_2nd_tridiag_witness :
    2 ≤ gridK2.ktot ∧
    bSolve gridK2 (fun _ => 0) (fun _ => 0) 0 0 (gridK2.ktot - 1)
      = bBase gridK2 (fun _ => 0) (fun _ => 0) 0 0 (gridK2.ktot - 1)
        - cCoef gridK2 (gridK2.ktot - 1) :=
  ⟨by decide,
    (pres_2nd_tridiag gridK2 (fun _ => 0) (fun _ => 0) (fun _ => 0) 0 0
      (by decide)).2.2.2.1 ⟨rfl, rfl⟩⟩

/-! 4th-order solver (pres_4.cxx): per-column heptadiagonal row assembly. -/

/-- One row of the heptadiagonal column system of Pres_4::solve: the seven
band coefficients m1..m7 and the right-hand-side entry. -/
structure HRow where
  m1 : ℚ
  m2 : ℚ
  m3 : ℚ
  m4 : ℚ
  m5 : ℚ
  m6 : ℚ
  m7 : ℚ
  rhs : ℚ
deriving DecidableEq

/-- Row assembly of the (kmax+4)-row column system built in Pres_4::solve
for the column with local indices (i, j): rows 0 and 1 are the bottom
ghost rows, rows 2..kmax+1 carry the interior coefficients with the
modified wavenumber added to the diagonal, and rows kmax+2 and kmax+3 are
the top ghost rows, which are pinning rows exactly for the zero
wavenumber.  The wavenumber indices swap the MPI coordinates:
iindex = mpicoordy*iblock + i and jindex = mpicoordx*jblock + j. -/
def pres4SolveRow (kmax : ℕ)
    (m1 m2 m3 m4 m5 m6 m7 bmati bmatj pcol : ℕ → ℚ)
    (mpicoordx mpicoordy iblock jblock i j : ℕ) (row : ℕ) : HRow :=
  let iindex := mpicoordy * iblock + i
  let jindex := mpicoordx * jblock + j
  if row = 0 then ⟨0, 0, 0, 1, 0, 0, -1, 0⟩
  else if row = 1 then ⟨0, 0, 0, 1, -1, 0, 0, 0⟩
  else if row < kmax + 2 then
    ⟨m1 (row - 2), m2 (row - 2), m3 (row - 2),
     m4 (row - 2) + bmati iindex + bmatj jindex,
     m5 (row - 2), m6 (row - 2), m7 (row - 2), pcol (row - 2)⟩
  else if row = kmax + 2 then
    if iindex = 0 ∧ jindex = 0 then ⟨0, -1/3, 2, 1, 0, 0, 0, 0⟩
    else ⟨0, 0, -1, 1, 0, 0, 0, 0⟩
  else
    if iindex = 0 ∧ jindex = 0 then ⟨-2, 9, 0, 1, 0, 0, 0, 0⟩
    else ⟨-1, 0, 0, 1, 0, 0, 0, 0⟩

/-- C5: the two bottom ghost rows always carry (m4 = 1, m7 = -1) and
(m4 = 1, m5 = -1) with all other entries zero; the two top ghost rows are
the pinning rows (m2 = -1/3, m3 = 2, m4 = 1) and (m1 = -2, m2 = 9,
m4 = 1) if and only if the column is the zero wavenumber (with the MPI
coordinates swapped in the indexing), and the zero-gradient rows
(m3 = -1, m4 = 1) and (m1 = -1, m4 = 1) otherwise. -/
theorem pres4_solve_ghost_rows (kmax : ℕ)
    (m1 m2 m3 m4 m5 m6 m7 bmati bmatj pcol : ℕ → ℚ)
    (mpicoordx mpicoordy iblock jblock i j : ℕ) :
    pres4SolveRow kmax m1 m2 m3 m4 m5 m6 m7 bmati bmatj pcol
        mpicoordx mpicoordy iblock jblock i j 0
      = ⟨0, 0, 0, 1, 0, 0, -1, 0⟩ ∧
    pres4SolveRow kmax m1 m2 m3 m4 m5 m6 m7 bmati bmatj pcol
        mpicoordx mpicoordy iblock jblock i j 1
      = ⟨0, 0, 0, 1, -1, 0, 0, 0⟩ ∧
    (mpicoordy * iblock + i = 0 ∧ mpicoordx * jblock + j = 0 →
      pres4SolveRow kmax m1 m2 m3 m4 m5 m6 m7 bmati bmatj pcol
          mpicoordx mpicoordy iblock jblock i j (kmax + 2)
        = ⟨0, -1/3, 2, 1, 0, 0, 0, 0⟩ ∧
      pres4SolveRow kmax m1 m2 m3 m4 m5 m6 m7 bmati bmatj pcol
          mpicoordx mpicoordy iblock jblock i j (kmax + 3)
        = ⟨-2, 9, 0, 1, 0, 0, 0, 0⟩) ∧
    (¬ (mpicoordy * iblock + i = 0 ∧ mpicoordx * jblock + j = 0) →
      pres4SolveRow kmax m1 m2 m3 m4 m5 m6 m7 bmati bmatj pcol
          mpicoordx mpicoordy iblock jblock i j (kmax + 2)
        = ⟨0, 0, -1, 1, 0, 0, 0, 0⟩ ∧
      pres4SolveRow kmax m1 m2 m3 m4 m5 m6 m7 bmati bmatj pcol
          mpicoordx mpicoordy iblock jblock i j (kmax + 3)
        = ⟨-1, 0, 0, 1, 0, 0, 0, 0⟩) := by
  unfold pres4SolveRow
  refine ⟨rfl, by rw [if_neg one_ne_zero, if_pos rfl], fun hz => ⟨?_, ?_⟩,
    fun hz => ⟨?_, ?_⟩⟩
  · rw [if_neg (by omega), if_neg (by omega), if_neg (by omega),
      if_pos rfl, if_pos hz]
  · rw [if_neg (by omega), if_neg (by omega), if_neg (by omega),
      if_neg (by omega), if_pos hz]
  · rw [if_neg (by omega), if_neg (by omega), if_neg (by omega),
      if_pos rfl, if_neg hz]
  · rw [if_neg (by omega), if_neg (by omega), if_neg (by omega),
      if_neg (by omega), if_neg hz]

/-- C5 witness: on a single rank (both MPI coordinates zero) the column
(i, j) = (0, 0) gets the first pinning row at kmax + 2, and the column
(i, j) = (1, 0) gets the zero-gradient row. -/
theorem pres4_solve_ghost_rows_witness :
    (0 * 1 + 0 = 0 ∧ 0 * 1 + 0 = 0) ∧
    pres4SolveRow 4 (fun _ => 0) (fun _ => 0) (fun _ => 0) (fun _ => 0)
        (fun _ => 0) (fun _ => 0) (fun _ => 0) (fun _ => 0) (fun _ => 0)
        (fun _ => 0) 0 0 1 1 0 0 6
      = ⟨0, -1/3, 2, 1, 0, 0, 0, 0⟩ ∧
    pres4SolveRow 4 (fun _ => 0) (fun _ => 0) (fun _ => 0) (fun _ => 0)
        (fun _ => 0) (fun _ => 0) (fun _ => 0) (fun _ => 0) (fun _ => 0)
        (fun _ => 0) 0 0 1 1 1 0 6
      = ⟨0, 0, -1, 1, 0, 0, 0, 0⟩ :=
  ⟨⟨rfl, rfl⟩,
    ((pres4_solve_ghost_rows 4 (fun _ => 0) (fun _ => 0) (fun _ => 0)
      (fun _ => 0) (fun _ => 0) (fun _ => 0) (fun _ => 0) (fun _ => 0)
      (fun _ => 0) (fun _ => 0) 0 0 1 1 0 0).2.2.1 ⟨rfl, rfl⟩).1,
    ((pres4_solve_ghost_rows 4 (fun _ => 0) (fun _ => 0) (fun _ => 0)
      (fun _ => 0) (fun _ => 0) (fun _ => 0) (fun _ => 0) (fun _ => 0)
      (fun _ => 0) (fun _ => 0) 0 0 1 1 1 0).2.2.2 (by decide)).1⟩

/-! cpres::tdma, the Numerical Recipes tridiagonal solver, embedded with
the workspace array gam threaded through the computation so that its
initialization can be varied. -/

/-- State threaded through cpres::tdma: the running pivot tmp, the output
array xout and the workspace array gam. -/
structure TdmaState where
  tmp : ℚ
  xout : ℕ → ℚ
  gam : ℕ → ℚ

/-- One forward-elimination step of cpres::tdma at index k:
gam[k] = c[k-1]/tmp, tmp = b[k] - a[k]*gam[k],
xout[k] = (xin[k] - a[k]*xout[k-1])/tmp. -/
def tdmaFwd (a b c xin : ℕ → ℚ) (s : TdmaState) (k : ℕ) : TdmaState :=
  let gamk := c (k - 1) / s.tmp
  let tmp2 := b k - a k * gamk
  { tmp := tmp2,
    gam := Function.update s.gam k gamk,
    xout := Function.update s.xout k
      ((xin k - a k * s.xout (k - 1)) / tmp2) }

/-- Forward elimination over k = 1..m. -/
def tdmaFwdIter (a b c xin : ℕ → ℚ) (s : TdmaState) : ℕ → TdmaState
  | 0 => s
  | m + 1 => tdmaFwd a b c xin (tdmaFwdIter a b c xin s m) (m + 1)

/-- Back substitution xout[k] -= gam[k+1]*xout[k+1] for k = m down to 0. -/
def tdmaBwdFrom (gam : ℕ → ℚ) (x : ℕ → ℚ) : ℕ → (ℕ → ℚ)
  | 0 => Function.update x 0 (x 0 - gam 1 * x 1)
  | m + 1 => tdmaBwdFrom gam
      (Function.update x (m + 1) (x (m + 1) - gam (m + 2) * x (m + 2))) m

/-- cpres::tdma on arrays a, b, c, xin, with initial output array xout0 and
initial workspace contents gam0: tmp = b[0], xout[0] = xin[0]/tmp, forward
elimination for k = 1..size-1, then back substitution for
k = size-2..0. -/
def tdma (a b c xin xout0 gam0 : ℕ → ℚ) (size : ℕ) : TdmaState :=
  let s1 := tdmaFwdIter a b c xin
    ⟨b 0, Function.update xout0 0 (xin 0 / b 0), gam0⟩ (size - 1)
  { s1 with xout :=
      if size < 2 then s1.xout else tdmaBwdFrom s1.gam s1.xout (size - 2) }

lemma tdmaFwdIter_indep (a b c xin : ℕ → ℚ) (sA sB : TdmaState)
    (ht : sA.tmp = sB.tmp) (hx : sA.xout = sB.xout) (m : ℕ) :
    (tdmaFwdIter a b c xin sA m).tmp = (tdmaFwdIter a b c xin sB m).tmp ∧
    (tdmaFwdIter a b c xin sA m).xout
      = (tdmaFwdIter a b c xin sB m).xout ∧
    (∀ k, 1 ≤ k → k ≤ m → (tdmaFwdIter a b c xin sA m).gam k
      = (tdmaFwdIter a b c xin sB m).gam k) ∧
    (∀ k, k = 0 ∨ m < k → (tdmaFwdIter a b c xin sA m).gam k = sA.gam k
      ∧ (tdmaFwdIter a b c xin sB m).gam k = sB.gam k) := by
  induction m with
  | zero =>
    exact ⟨ht, hx, fun k h1 h2 => absurd (le_trans h1 h2) (by omega),
      fun k _ => ⟨rfl, rfl⟩⟩
  | succ m ih =>
    obtain ⟨iht, ihx, ihg, ihout⟩ := ih
    have hstep : ∀ s : TdmaState, tdmaFwdIter a b c xin s (m + 1)
        = tdmaFwd a b c xin (tdmaFwdIter a b c xin s m) (m + 1) :=
      fun s => rfl
    rw [hstep sA, hstep sB]
    unfold tdmaFwd
    refine ⟨?_, ?_, ?_, ?_⟩
    · simp only [iht, ihx]
    · simp only [iht, ihx]
    · intro k h1 h2
      by_cases hk : k = m + 1
      · subst hk
        simp only [iht, Function.update_same]
      · simp only [Function.update_noteq hk]
        exact ihg k h1 (by omega)
    · intro k hk
      have hk1 : k ≠ m + 1 := by omega
      simp only [Function.update_noteq hk1]
      exact ihout k (by omega)

lemma tdmaBwdFrom_congr (gA gB : ℕ → ℚ) (m : ℕ)
    (hg : ∀ k, 1 ≤ k → k ≤ m + 1 → gA k = gB k) :
    ∀ xA xB : ℕ → ℚ, xA = xB →
      tdmaBwdFrom gA xA m = tdmaBwdFrom gB xB m := by
  induction m with
  | zero =>
    intro xA xB hx
    subst hx
    unfold tdmaBwdFrom
    rw [hg 1 le_rfl le_rfl]
  | succ m ih =>
    intro xA xB hx
    subst hx
    have hg2 : gA (m + 2) = gB (m + 2) := hg (m + 2) (by omega) (by omega)
    have hstep : ∀ (g : ℕ → ℚ) (x : ℕ → ℚ), tdmaBwdFrom g x (m + 1)
        = tdmaBwdFrom g
            (Function.update x (m + 1) (x (m + 1) - g (m + 2) * x (m + 2)))
            m := fun g x => rfl
    rw [hstep gA, hstep gB, hg2]
    exact ih (fun k h1 h2 => hg k h1 (by omega)) _ _ rfl

/-- C8: the result of cpres::tdma does not depend on the initial contents
of the workspace array gam: two runs differing only in gam produce the
same output xout, the entry gam[0] is never written (it still holds its
initial value afterwards), and every workspace entry gam[k] with
1 <= k < size ends up with the same (recomputed) value in both runs. -/
theorem tdma_gam_independent (a b c xin xout0 gam0 gam0' : ℕ → ℚ)
    (size : ℕ) (hs : 1 ≤ size) :
    (∀ k, (tdma a b c xin xout0 gam0 size).xout k
      = (tdma a b c xin xout0 gam0' size).xout k) ∧
    (tdma a b c xin xout0 gam0 size).gam 0 = gam0 0 ∧
    (tdma a b c xin xout0 gam0' size).gam 0 = gam0' 0 ∧
    (∀ k, 1 ≤ k → k < size → (tdma a b c xin xout0 gam0 size).gam k
      = (tdma a b c xin xout0 gam0' size).gam k) := by
  obtain ⟨iht, ihx, ihg, ihout⟩ := tdmaFwdIter_indep a b c xin
    ⟨b 0, Function.update xout0 0 (xin 0 / b 0), gam0⟩
    ⟨b 0, Function.update xout0 0 (xin 0 / b 0), gam0'⟩ rfl rfl (size - 1)
  have hgam : ∀ g : ℕ → ℚ, (tdma a b c xin xout0 g size).gam
      = (tdmaFwdIter a b c xin
          ⟨b 0, Function.update xout0 0 (xin 0 / b 0), g⟩ (size - 1)).gam :=
    fun g => rfl
  have hx2 : ∀ g : ℕ → ℚ, (tdma a b c xin xout0 g size).xout
      = (if size < 2 then
          (tdmaFwdIter a b c xin
            ⟨b 0, Function.update xout0 0 (xin 0 / b 0), g⟩
            (size - 1)).xout
        else tdmaBwdFrom
          (tdmaFwdIter a b c xin
            ⟨b 0, Function.update xout0 0 (xin 0 / b 0), g⟩
            (size - 1)).gam
          (tdmaFwdIter a b c xin
            ⟨b 0, Function.update xout0 0 (xin 0 / b 0), g⟩
            (size - 1)).xout
          (size - 2)) := fun g => rfl
  refine ⟨?_, ?_, ?_, ?_⟩
  · intro k
    rw [hx2, hx2]
    by_cases h2 : size < 2
    · rw [if_pos h2, if_pos h2, ihx]
    · rw [if_neg h2, if_neg h2,
        tdmaBwdFrom_congr _ _ (size - 2)
          (fun k h1 hk2 => ihg k h1 (by omega)) _ _ ihx]
  · rw [hgam]
    exact (ihout 0 (Or.inl rfl)).1
  · rw [hgam]
    exact (ihout 0 (Or.inl rfl)).2
  · intro k h1 h2
    rw [hgam, hgam]
    exact ihg k h1 (by omega)

/-- C8 witness: a concrete size-3 system solved with two different
workspace initializations gives the same first output entry. -/
theorem tdma_gam_independent_witness :
    1 ≤ 3 ∧
    (tdma (fun _ => 1) (fun _ => 4) (fun _ => 1) (fun n => (n : ℚ))
        (fun _ => 0) (fun _ => 5) 3).xout 0
      = (tdma (fun _ => 1) (fun _ => 4) (fun _ => 1) (fun n => (n : ℚ))
        (fun _ => 0) (fun _ => 99) 3).xout 0 :=
  ⟨by norm_num,
    (tdma_gam_independent (fun _ => 1) (fun _ => 4) (fun _ => 1)
      (fun n => (n : ℚ)) (fun _ => 0) (fun _ => 5) (fun _ => 99) 3
      (by norm_num)).1 0⟩

/-! Force::updateTimeDep and Force::updateTimeDepProfs: time interpolation
of large-scale forcing profiles. -/

/-- Index search loop of Force::updateTimeDep: index1 is incremented while
the current time is not smaller than the table entry (the loop breaks at
the first entry with t < times[i]). -/
def findIndex1 (times : List ℚ) (t : ℚ) : ℕ :=
  (times.takeWhile (fun x => !decide (t < x))).length

/-- Weight and index selection of Force::updateTimeDep at simulation time
t, handling the two out-of-range situations. -/
def timeDepSelect (times : List ℚ) (t : ℚ) : ℚ × ℚ × ℕ × ℕ :=
  if findIndex1 times t = 0 then (0, 1, 0, 0)
  else if findIndex1 times t = times.length then
    (1, 0, findIndex1 times t - 1, findIndex1 times t - 1)
  else
    ((times.getD (findIndex1 times t) 0 - t)
      / (times.getD (findIndex1 times t) 0
          - times.getD (findIndex1 times t - 1) 0),
     (t - times.getD (findIndex1 times t - 1) 0)
      / (times.getD (findIndex1 times t) 0
          - times.getD (findIndex1 times t - 1) 0),
     findIndex1 times t - 1, findIndex1 times t)

/-- Force::updateTimeDepProfs for one active profile: blend rows index0
and index1 of the flattened [T x kmax] table into the levels
kgc..kgc+kmax-1 of the profile. -/
def updateTimeDepProf (kmax kgc : ℕ) (data prof : ℕ → ℚ)
    (sel : ℚ × ℚ × ℕ × ℕ) : ℕ → ℚ :=
  fun n =>
    if kgc ≤ n ∧ n < kgc + kmax then
      sel.1 * data (sel.2.2.1 * kmax + (n - kgc))
        + sel.2.1 * data (sel.2.2.2 * kmax + (n - kgc))
    else prof n

lemma updateTimeDepProf_eval (kmax kgc : ℕ) (data prof : ℕ → ℚ)
    (sel : ℚ × ℚ × ℕ × ℕ) (k : ℕ) (hk : k < kmax) :
    updateTimeDepProf kmax kgc data prof sel (k + kgc)
      = sel.1 * data (sel.2.2.1 * kmax + k)
        + sel.2.1 * data (sel.2.2.2 * kmax + k) := by
  unfold updateTimeDepProf
  rw [if_pos ⟨by omega, by omega⟩]
  have hsub : k + kgc - kgc = k := by omega
  rw [hsub]

lemma findIndex1_le (times : List ℚ) (t : ℚ) :
    findIndex1 times t ≤ times.length := by
  induction times with
  | nil => exact le_rfl
  | cons x xs ih =>
    unfold findIndex1 at *
    by_cases h : t < x
    · rw [List.takeWhile_cons_of_neg (by simp [h])]
      simp
    · rw [List.takeWhile_cons_of_pos (by simp [h])]
      simpa using ih

lemma findIndex1_pred (times : List ℚ) (t : ℚ) :
    ∀ m, m < findIndex1 times t → ¬ t < times.getD m 0 := by
  induction times with
  | nil => intro m hm; simp [findIndex1] at hm
  | cons x xs ih =>
    intro m hm
    by_cases h : t < x
    · rw [findIndex1, List.takeWhile_cons_of_neg (by simp [h])] at hm
      simp at hm
    · rw [findIndex1, List.takeWhile_cons_of_pos (by simp [h])] at hm
      cases m with
      | zero => simpa using h
      | succ m =>
        have hm2 : m < findIndex1 xs t := by
          unfold findIndex1
          rw [List.length_cons] at hm
          omega
        simpa using ih m hm2

lemma findIndex1_lt (times : List ℚ) (t : ℚ) :
    findIndex1 times t < times.length →
      t < times.getD (findIndex1 times t) 0 := by
  induction times with
  | nil => intro h; simp [findIndex1] at h
  | cons x xs ih =>
    intro h
    by_cases hx : t < x
    · rw [findIndex1, List.takeWhile_cons_of_neg (by simp [hx])]
      simpa using hx
    · rw [findIndex1, List.takeWhile_cons_of_pos (by simp [hx])] at h ⊢
      simp only [List.length_cons] at h ⊢
      have h2 : findIndex1 xs t < xs.length := by
        unfold findIndex1
        omega
      simpa using ih h2

lemma findIndex1_all (times : List ℚ) (t : ℚ)
    (h : ∀ m, m < times.length → ¬ t < times.getD m 0) :
    findIndex1 times t = times.length := by
  induction times with
  | nil => rfl
  | cons x xs ih =>
    have h0 : ¬ t < x := by simpa using h 0 (by simp)
    rw [findIndex1, List.takeWhile_cons_of_pos (by simp [h0]),
      List.length_cons, List.length_cons]
    have ih2 := ih (fun m hm => by simpa using h (m + 1) (by simpa using hm))
    unfold findIndex1 at ih2
    omega

lemma findIndex1_unique (times : List ℚ) (t : ℚ) (i : ℕ)
    (hle : i ≤ times.length)
    (hlow : ∀ m, m < i → ¬ t < times.getD m 0)
    (hhigh : i < times.length → t < times.getD i 0) :
    findIndex1 times t = i := by
  by_contra hne
  rcases lt_or_gt_of_ne hne with hlt | hgt
  · exact hlow _ hlt (findIndex1_lt times t (lt_of_lt_of_le hlt hle))
  · exact findIndex1_pred times t i hgt
      (hhigh (lt_of_lt_of_le hgt (findIndex1_le times t)))

lemma getD_mono (times : List ℚ)
    (hmono : ∀ m, m + 1 < times.length →
      times.getD m 0 < times.getD (m + 1) 0) :
    ∀ m n, m ≤ n → n < times.length →
      times.getD m 0 ≤ times.getD n 0 := by
  intro m n hmn
  induction n with
  | zero =>
    intro _
    have hm : m = 0 := by omega
    rw [hm]
  | succ n ihn =>
    intro hlen
    by_cases hm : m = n + 1
    · rw [hm]
    · have h1 : m ≤ n := by omega
      have h2 : n < times.length := by omega
      exact le_trans (ihn h1 h2) (le_of_lt (hmono n hlen))

/-- C6: with a strictly increasing shared time vector, updateTimeDep
produces at level k+kgc: row 0 of the table when t is before the first
time (weights (0,1) on index 0), row T-1 when t is at or past the last
time (weights (1,0)), and otherwise the linear blend of rows i1-1 and i1
with weights (times[i1]-t)/d and (t-times[i1-1])/d where i1, the loop
result, is the smallest index with times[i1] > t and
d = times[i1]-times[i1-1]; at t = times[0] the profile equals row 0
exactly.  The blend is affine in t on each interval, so the profile is
piecewise-linear in time. -/
theorem updateTimeDep_interp (times : List ℚ) (t : ℚ) (kmax kgc : ℕ)
    (data prof : ℕ → ℚ) (k : ℕ) (hne : times ≠ [])
    (hmono : ∀ m, m + 1 < times.length →
      times.getD m 0 < times.getD (m + 1) 0)
    (hk : k < kmax) :
    (t < times.getD 0 0 →
      updateTimeDepProf kmax kgc data prof (timeDepSelect times t) (k + kgc)
        = data (0 * kmax + k)) ∧
    (times.getD (times.length - 1) 0 ≤ t →
      updateTimeDepProf kmax kgc data prof (timeDepSelect times t) (k + kgc)
        = data ((times.length - 1) * kmax + k)) ∧
    (0 < findIndex1 times t → findIndex1 times t < times.length →
      times.getD (findIndex1 times t - 1) 0 ≤ t ∧
      t < times.getD (findIndex1 times t) 0 ∧
      updateTimeDepProf kmax kgc data prof (timeDepSelect times t) (k + kgc)
        = (times.getD (findIndex1 times t) 0 - t)
            / (times.getD (findIndex1 times t) 0
                - times.getD (findIndex1 times t - 1) 0)
            * data ((findIndex1 times t - 1) * kmax + k)
          + (t - times.getD (findIndex1 times t - 1) 0)
            / (times.getD (findIndex1 times t) 0
                - times.getD (findIndex1 times t - 1) 0)
            * data (findIndex1 times t * kmax + k)) ∧
    (t = times.getD 0 0 →
      updateTimeDepProf kmax kgc data prof (timeDepSelect times t) (k + kgc)
        = data (0 * kmax + k)) := by
  have hT : 0 < times.length := List.length_pos.mpr hne
  refine ⟨?_, ?_, ?_, ?_⟩
  · intro h
    have hi1 : findIndex1 times t = 0 := by
      by_contra hne1
      exact findIndex1_pred times t 0 (by omega) h
    have hsel : timeDepSelect times t = (0, 1, 0, 0) := by
      unfold timeDepSelect
      rw [hi1, if_pos rfl]
    rw [updateTimeDepProf_eval kmax kgc data prof _ k hk, hsel]
    show (0 : ℚ) * data (0 * kmax + k) + 1 * data (0 * kmax + k)
      = data (0 * kmax + k)
    ring
  · intro h
    have hall : ∀ m, m < times.length → ¬ t < times.getD m 0 := by
      intro m hm
      exact not_lt.mpr (le_trans
        (getD_mono times hmono m (times.length - 1) (by omega) (by omega)) h)
    have hi1 : findIndex1 times t = times.length := findIndex1_all times t hall
    have hsel : timeDepSelect times t
        = (1, 0, times.length - 1, times.length - 1) := by
      unfold timeDepSelect
      rw [hi1, if_neg (by omega), if_pos rfl]
    rw [updateTimeDepProf_eval kmax kgc data prof _ k hk, hsel]
    show (1 : ℚ) * data ((times.length - 1) * kmax + k)
        + 0 * data ((times.length - 1) * kmax + k)
      = data ((times.length - 1) * kmax + k)
    ring
  · intro h1 h2
    have hlow : times.getD (findIndex1 times t - 1) 0 ≤ t :=
      not_lt.mp (findIndex1_pred times t (findIndex1 times t - 1) (by omega))
    have hhigh : t < times.getD (findIndex1 times t) 0 :=
      findIndex1_lt times t h2
    refine ⟨hlow, hhigh, ?_⟩
    have hsel : timeDepSelect times t
        = ((times.getD (findIndex1 times t) 0 - t)
            / (times.getD (findIndex1 times t) 0
                - times.getD (findIndex1 times t - 1) 0),
           (t - times.getD (findIndex1 times t - 1) 0)
            / (times.getD (findIndex1 times t) 0
                - times.getD (findIndex1 times t - 1) 0),
           findIndex1 times t - 1, findIndex1 times t) := by
      unfold timeDepSelect
      rw [if_neg (by omega), if_neg (by omega)]
    rw [updateTimeDepProf_eval kmax kgc data prof _ k hk, hsel]
  · intro h
    by_cases hT1 : times.length = 1
    · have hlast : times.getD (times.length - 1) 0 ≤ t := by
        rw [hT1, h]
      have hall : ∀ m, m < times.length → ¬ t < times.getD m 0 := by
        intro m hm
        exact not_lt.mpr (le_trans
          (getD_mono times hmono m (times.length - 1) (by omega) (by omega))
          hlast)
      have hi1 : findIndex1 times t = times.length :=
        findIndex1_all times t hall
      have hsel : timeDepSelect times t
          = (1, 0, times.length - 1, times.length - 1) := by
        unfold timeDepSelect
        rw [hi1, if_neg (by omega), if_pos rfl]
      rw [updateTimeDepProf_eval kmax kgc data prof _ k hk, hsel, hT1]
      show (1 : ℚ) * data ((1 - 1) * kmax + k) + 0 * data ((1 - 1) * kmax + k)
        = data (0 * kmax + k)
      norm_num
    · have hTT : 2 ≤ times.length := by omega
      have hi1 : findIndex1 times t = 1 := by
        refine findIndex1_unique times t 1 (by omega) ?_ ?_
        · intro m hm
          have hm0 : m = 0 := by omega
          rw [hm0, h]
          exact lt_irrefl _
        · intro hlen
          rw [h]
          exact hmono 0 (by omega)
      have hd : times.getD 0 0 < times.getD 1 0 := hmono 0 (by omega)
      have hdne : times.getD 1 0 - times.getD 0 0 ≠ 0 :=
        sub_ne_zero.mpr (ne_of_gt hd)
      have hsel : timeDepSelect times t
          = ((times.getD 1 0 - t) / (times.getD 1 0 - times.getD 0 0),
             (t - times.getD 0 0) / (times.getD 1 0 - times.getD 0 0),
             0, 1) := by
        unfold timeDepSelect
        rw [hi1, if_neg one_ne_zero, if_neg (by omega)]
      rw [updateTimeDepProf_eval kmax kgc data prof _ k hk, hsel]
      show (times.getD 1 0 - t) / (times.getD 1 0 - times.getD 0 0)
            * data (0 * kmax + k)
          + (t - times.getD 0 0) / (times.getD 1 0 - times.getD 0 0)
            * data (1 * kmax + k)
        = data (0 * kmax + k)
      rw [h, sub_self, zero_div, div_self hdne]
      ring

/-- C6 witness: the S6-style scenario with times (0, 10), row 0 all zeros
and row 1 equal to the level index, evaluated at t = 3 and level k = 3
(kmax = 8): the in-between branch applies with i1 = 1. -/
theorem updateTimeDep_interp_witness :
    0 < findIndex1 [0, 10] 3 ∧ findIndex1 [0, 10] 3 < 2 ∧
    ([0, 10] : List ℚ) ≠ [] ∧ 3 < 8 ∧
    updateTimeDepProf 8 1 (fun m => if m < 8 then 0 else ((m - 8 : ℕ) : ℚ))
        (fun _ => 0) (timeDepSelect [0, 10] 3) (3 + 1)
      = (([0, 10] : List ℚ).getD (findIndex1 [0, 10] 3) 0 - 3)
          / (([0, 10] : List ℚ).getD (findIndex1 [0, 10] 3) 0
              - ([0, 10] : List ℚ).getD (findIndex1 [0, 10] 3 - 1) 0)
          * (fun m => if m < 8 then 0 else ((m - 8 : ℕ) : ℚ))
              ((findIndex1 [0, 10] 3 - 1) * 8 + 3)
        + (3 - ([0, 10] : List ℚ).getD (findIndex1 [0, 10] 3 - 1) 0)
          / (([0, 10] : List ℚ).getD (findIndex1 [0, 10] 3) 0
              - ([0, 10] : List ℚ).getD (findIndex1 [0, 10] 3 - 1) 0)
          * (fun m => if m < 8 then 0 else ((m - 8 : ℕ) : ℚ))
              (findIndex1 [0, 10] 3 * 8 + 3) :=
  ⟨by decide, by decide, by decide, by decide,
    ((updateTimeDep_interp [0, 10] 3 8 1
      (fun m => if m < 8 then 0 else ((m - 8 : ℕ) : ℚ)) (fun _ => 0) 3
      (by decide)
      (by
        intro m hm
        simp only [List.length_cons, List.length_nil] at hm
        have hm2 : m = 0 := by omega
        subst hm2
        decide)
      (by decide)).2.2.1 (by decide) (by decide)).2.2⟩

end MicroHH
